import Mathlib

/-!
# Verification of the Mumbai Travel Assistant penalty-lookup core

A shallow embedding of the semantic penalty-lookup subsystem
(`src/tools/get_penalty_details.py` and `src/utils/redis.py`):
record parsing, searchable-text derivation, category selection,
top-k ranking, the embedding warmup/cache logic, and the best-effort
Redis cache operations.  Embedding vectors are modelled over `ℚ`
(the ranking and cache claims are about selection structure and
control flow, not floating-point rounding).

Python string primitives (`strip`, `lower`, `startswith`,
`split(",", 2)`) are embedded as structural functions over the
character list of a `String`, so that every definition evaluates
inside the kernel.
-/

deriving instance DecidableEq for Except

namespace PenaltySearch

/-- Python whitespace for `str.strip()`. -/
def pyIsSpace (c : Char) : Bool :=
  c = ' ' || c = '\t' || c = '\n' || c = '\r' || c = '\x0b' || c = '\x0c'

/-- Python `s.strip()`. -/
def pyStrip (s : String) : String :=
  String.mk (((s.data.dropWhile pyIsSpace).reverse.dropWhile pyIsSpace).reverse)

/-- Python `s.lower()`. -/
def pyLower (s : String) : String := String.mk (s.data.map Char.toLower)

/-- Python `s.startswith(pre)`. -/
def pyStartsWith (s pre : String) : Bool := pre.data.isPrefixOf s.data

/-- Split a character list at every occurrence of `sep`. -/
def splitAllAux (sep : Char) : List Char → List Char → List (List Char)
  | [], acc => [acc.reverse]
  | c :: cs, acc =>
    if c = sep then acc.reverse :: splitAllAux sep cs []
    else splitAllAux sep cs (c :: acc)

/-- Python `s.split(",")`. -/
def pySplitComma (s : String) : List String :=
  (splitAllAux ',' s.data []).map String.mk

/-- Rejoin fields with `","` (used to rebuild the third field of
`split(",", 2)` from a full split). -/
def joinComma : List String → String
  | [] => ""
  | [x] => x
  | x :: xs => String.mk (x.data ++ ',' :: (joinComma xs).data)

/-- Python `line.split(",", 2)`: split on at most the first two commas,
yielding at most three fields. -/
def splitMax2 (s : String) : List String :=
  match pySplitComma s with
  | a :: b :: c :: rest => [a, b, joinComma (c :: rest)]
  | parts => parts

/-- Join non-empty segments with `" | "` (the `" | ".join` of `as_text`). -/
def joinSegments : List String → String
  | [] => ""
  | [x] => x
  | x :: xs => String.mk (x.data ++ ' ' :: '|' :: ' ' :: (joinSegments xs).data)

/-- The `PenaltyRecord` dataclass of `get_penalty_details.py`. -/
structure PenaltyRecord where
  code : String
  description : String
  penalty : String
  category : String
deriving DecidableEq, Repr

/-- Source `PenaltyRecord.as_text`: join category, code, description and (when the
penalty field is non-empty) `"Penalty: " + penalty` with `" | "`, skipping
empty segments (the generator filters on `if segment`). -/
def PenaltyRecord.as_text (r : PenaltyRecord) : String :=
  let parts := [r.category, r.code, r.description] ++
    (if r.penalty ≠ "" then ["Penalty: " ++ r.penalty] else [])
  joinSegments (parts.filter (fun segment => segment ≠ ""))

/-- The searchable text as the specification words it literally: category,
code and description (even when empty), then the penalty segment when the
penalty is non-empty, joined by the fixed separator. -/
def as_text_claim_literal (r : PenaltyRecord) : String :=
  joinSegments ([r.category, r.code, r.description] ++
    (if r.penalty ≠ "" then ["Penalty: " ++ r.penalty] else []))

/-- The searchable text as the amended claim describes it: the same
concatenation but with empty segments omitted entirely. -/
def as_text_claim_amended (r : PenaltyRecord) : String :=
  joinSegments (([r.category, r.code, r.description].filter (fun s => s ≠ "")) ++
    (if r.penalty ≠ "" then ["Penalty: " ++ r.penalty] else []))

/-- Source `_parse_traffic_records`: strip each line, skip blanks and the
`"traffic penalties"` header, split on the first two commas, skip lines with
fewer than two fields, and emit a `traffic` record. -/
def _parse_traffic_records : List String → List PenaltyRecord
  | [] => []
  | raw_line :: rest =>
    let line := pyStrip raw_line
    let remaining := _parse_traffic_records rest
    if line = "" then remaining
    else if pyStartsWith (pyLower line) "traffic penalties" then remaining
    else
      let parts := (splitMax2 line).map pyStrip
      if parts.length < 2 then remaining
      else
        { code := parts.getD 0 "", description := parts.getD 1 "",
          penalty := if parts.length = 3 then parts.getD 2 "" else "",
          category := "traffic" } :: remaining

/-- The field extraction of one railway data line: split on the first two
commas, interpret a single field as a bare description, and move a lone code
into the description slot (`if not description and code`).  Returns
`(code, description, penalty)`. -/
def parseRailwayFields (line : String) : String × String × String :=
  let parts := (splitMax2 line).map pyStrip
  let fields :=
    if parts.length = 1 then ("", parts.getD 0 "", "")
    else (parts.getD 0 "", parts.getD 1 "", parts.getD 2 "")
  if fields.2.1 = "" ∧ fields.1 ≠ "" then ("", fields.1, fields.2.2)
  else fields

/-- The loop body of `_parse_railway_records`, carrying the mutable
`current_category` variable; a row whose extracted description is empty is
dropped. -/
def _parse_railway_go (current_category : String) : List String → List PenaltyRecord
  | [] => []
  | raw_line :: rest =>
    let line := pyStrip raw_line
    if line = "" then _parse_railway_go current_category rest
    else if pyStartsWith (pyLower line) "railway penalties" then
      _parse_railway_go current_category rest
    else if pyLower line = "other offences" then
      _parse_railway_go "railway-other" rest
    else if (parseRailwayFields line).2.1 = "" then
      _parse_railway_go current_category rest
    else
      { code := (parseRailwayFields line).1,
        description := (parseRailwayFields line).2.1,
        penalty := (parseRailwayFields line).2.2,
        category := current_category } :: _parse_railway_go current_category rest

/-- Source `_parse_railway_records`: the category starts at `"railway"` and the
marker line `"other offences"` switches it to `"railway-other"`. -/
def _parse_railway_records (lines : List String) : List PenaltyRecord :=
  _parse_railway_go "railway" lines

/-- Constant `VALID_CATEGORIES` (the module-level set constant). -/
def VALID_CATEGORIES : List String := ["traffic", "railway", "railway-other"]

/-- Python exceptions that the subsystem raises. -/
inductive PyErr where
  | valueError (msg : String)
  | runtimeError (msg : String)
deriving DecidableEq, Repr

/-- Source `_select_indices`: `None` or `""` (falsy) selects the whole index space;
otherwise the stripped, lowered category must be in `VALID_CATEGORIES`
(or the redundant `"railway"` alternative) or a `ValueError` is raised;
`"railway"` selects the union of `railway` and `railway-other`. -/
def _select_indices (records : List PenaltyRecord) (category : Option String) :
    Except PyErr (List Nat) :=
  match category with
  | none => .ok (List.range records.length)
  | some c =>
    if c = "" then .ok (List.range records.length)
    else
      let normalized := pyLower (pyStrip c)
      if ¬ (VALID_CATEGORIES.contains normalized) ∧ normalized ≠ "railway" then
        .error (.valueError "category must be one of the valid categories or railway")
      else
        let targets : List String :=
          if normalized = "railway" then ["railway", "railway-other"] else [normalized]
        .ok ((records.enum.filter (fun p => targets.contains p.2.category)).map Prod.fst)

/-- A row of the embedding matrix. -/
abbrev Vec := List ℚ

/-- The embedding matrix (`torch.Tensor` of shape `(N, D)`). -/
abbrev EmbMatrix := List Vec

/-- Dot product of two rows (`torch.matmul` of a matrix row with the query
vector). -/
def dot (v w : Vec) : ℚ := ((v.zip w).map (fun p => p.1 * p.2)).sum

/-- Python `round(x, 4)` as exact rounding of a rational to 4 decimal places
(the float-level round-half-even behaviour is not modelled). -/
def round4 (x : ℚ) : ℚ := (round (x * 10000) : ℤ) / 10000

/-- The result dictionary entry built by `_format_record`; `none` models the
`or None` replacement of empty strings. -/
structure RankedEntry where
  code : Option String
  description : Option String
  penalty : Option String
  category : String
  similarity : ℚ
deriving DecidableEq, Repr

/-- Source `_format_record`. -/
def _format_record (record : PenaltyRecord) (similarity : ℚ) : RankedEntry :=
  { code := if record.code = "" then none else some record.code,
    description := if record.description = "" then none else some record.description,
    penalty := if record.penalty = "" then none else some record.penalty,
    category := record.category,
    similarity := round4 similarity }

/-- The comparison `torch.topk` sorts by: larger score first, equal scores
ordered by ascending position (the stable tie order of the sort). -/
def rankLE (a b : Nat × ℚ) : Prop := b.2 < a.2 ∨ (a.2 = b.2 ∧ a.1 ≤ b.1)

instance : DecidableRel rankLE := fun a b =>
  inferInstanceAs (Decidable (b.2 < a.2 ∨ (a.2 = b.2 ∧ a.1 ≤ b.1)))

instance : IsTotal (Nat × ℚ) rankLE where
  total a b := by
    unfold rankLE
    rcases lt_trichotomy a.2 b.2 with h | h | h
    · exact Or.inr (Or.inl h)
    · rcases Nat.le_total a.1 b.1 with hn | hn
      · exact Or.inl (Or.inr ⟨h, hn⟩)
      · exact Or.inr (Or.inr ⟨h.symm, hn⟩)
    · exact Or.inl (Or.inl h)

instance : IsTrans (Nat × ℚ) rankLE where
  trans a b c hab hbc := by
    unfold rankLE at *
    rcases hab with h1 | ⟨h1, h1n⟩ <;> rcases hbc with h2 | ⟨h2, h2n⟩
    · exact Or.inl (h2.trans h1)
    · exact Or.inl (h2 ▸ h1)
    · exact Or.inl (h1 ▸ h2)
    · exact Or.inr ⟨h1.trans h2, h1n.trans h2n⟩

/-- Scores paired with their position in the score vector. -/
def scoredPositions (scores : List ℚ) : List (Nat × ℚ) :=
  (List.range scores.length).map (fun p => (p, scores.getD p 0))

/-- Model of `torch.topk(scores, k)`: the `k` best `(position, score)` pairs in
descending score order, ties by ascending position. -/
def topk (scores : List ℚ) (k : Nat) : List (Nat × ℚ) :=
  (List.insertionSort rankLE (scoredPositions scores)).take k

/-- Lines 359–378 of `penalty_semantic_lookup`: score the filtered subset rows
against the query vector, take the top `min(top_k, len(indices))`, and map the
subset positions back to original record indices.  Each returned pair is
`(original index, raw similarity)`. -/
def rankCandidates (matrix : EmbMatrix) (query_vector : Vec) (top_k : Int)
    (indices : List Nat) : List (Nat × ℚ) :=
  let scores := indices.map (fun i => dot (matrix.getD i []) query_vector)
  let k := min top_k.toNat indices.length
  (topk scores k).map (fun p => (indices.getD p.1 0, p.2))

/-- The result dictionary of `penalty_semantic_lookup`; `matched` and
`total_candidates` are `Option` because the empty-subset return omits those
keys. -/
structure LookupResult where
  query : String
  category : String
  matched : Option Nat
  total_candidates : Option Nat
  results : List RankedEntry
  notes : Option String
deriving DecidableEq, Repr

/-- Python `category or "all"`. -/
def categoryLabel (category : Option String) : String :=
  match category with
  | none => "all"
  | some c => if c = "" then "all" else c

/-- Source `penalty_semantic_lookup`, parameterised by the post-warmup module state:
the parsed `PENALTY_RECORDS`, the (optional) `PENALTY_EMBEDDINGS` matrix, and
the encoded query vector.  Validation, category selection, the empty-subset
early return and the ranked main return follow the source order. -/
def penalty_semantic_lookup (records : List PenaltyRecord) (emb : Option EmbMatrix)
    (query_vector : Vec) (query : String) (top_k : Int) (category : Option String) :
    Except PyErr LookupResult :=
  if query = "" ∨ pyStrip query = "" then .error (.valueError "query cannot be empty")
  else if top_k ≤ 0 then .error (.valueError "top_k must be greater than zero")
  else
    match emb with
    | none => .error (.runtimeError "Penalty embeddings are not initialized")
    | some matrix =>
      match _select_indices records category with
      | .error e => .error e
      | .ok indices =>
        if indices = [] then
          .ok { query := query, category := categoryLabel category,
                matched := none, total_candidates := none, results := [],
                notes := some "No penalty entries available for the requested category." }
        else
          let ranked := rankCandidates matrix query_vector top_k indices
          let results := ranked.map (fun p =>
            _format_record (records.getD p.1 ⟨"", "", "", ""⟩) p.2)
          .ok { query := query, category := categoryLabel category,
                matched := some results.length, total_candidates := some indices.length,
                results := results, notes := none }

/-! ## Warmup and embedding-cache lifecycle (`ensure_penalty_embeddings`) -/

/-- Source `_compute_embeddings`: an empty text list raises `ValueError`; otherwise
the underlying `model.encode` (abstracted as `encode`) produces the matrix or
fails. -/
def _compute_embeddings (encode : List String → Except PyErr EmbMatrix)
    (texts : List String) : Except PyErr EmbMatrix :=
  if texts = [] then .error (.valueError "No texts provided for embedding computation")
  else encode texts

/-- The cache-consultation step of `ensure_penalty_embeddings` (lines 170–180):
with no `force` and a configured Redis client, a returned entry is adopted only
when `cached_values` is truthy (non-`None` and non-empty), `cached_embeddings`
is not `None`, the lengths agree and the lists are equal. -/
def cacheHit (force : Bool) (redisAvailable : Bool)
    (cacheRead : Option (List String) × Option EmbMatrix) (texts : List String) :
    Option EmbMatrix :=
  if ¬ force ∧ redisAvailable then
    match cacheRead with
    | (some cached_values, some cached_embeddings) =>
      if cached_values ≠ [] ∧ cached_values.length = texts.length ∧ cached_values = texts
      then some cached_embeddings else none
    | _ => none
  else none

/-- The observable outcome of one `ensure_penalty_embeddings` call: the final
`PENALTY_EMBEDDINGS` global, whether the cached matrix was adopted, whether a
fresh result was written to the cache, and the propagated exception (if any).
Globals keep their prior value when an exception escapes. -/
structure EnsureResult where
  embeddings : Option EmbMatrix
  adopted_cache : Bool
  wrote_cache : Bool
  error : Option PyErr
deriving DecidableEq, Repr

/-- Source `ensure_penalty_embeddings`, parameterised by the pre-call state: the
parsed `PENALTY_TEXTS`, the current `PENALTY_EMBEDDINGS` (`cur`), whether
`app_state.redis_client` is configured, the pair returned by
`get_cached_embeddings`, and the encoder.  Record loading and model loading
are modelled as already completed. -/
def ensure_penalty_embeddings (force : Bool) (texts : List String)
    (cur : Option EmbMatrix) (redisAvailable : Bool)
    (cacheRead : Option (List String) × Option EmbMatrix)
    (encode : List String → Except PyErr EmbMatrix) : EnsureResult :=
  if cur ≠ none ∧ ¬ force then
    { embeddings := cur, adopted_cache := false, wrote_cache := false, error := none }
  else
    match cacheHit force redisAvailable cacheRead texts with
    | some cached_embeddings =>
      { embeddings := some cached_embeddings, adopted_cache := true,
        wrote_cache := false, error := none }
    | none =>
      match _compute_embeddings encode texts with
      | .error e =>
        { embeddings := cur, adopted_cache := false, wrote_cache := false,
          error := some e }
      | .ok embeddings =>
        { embeddings := some embeddings, adopted_cache := false,
          wrote_cache := redisAvailable, error := none }

/-! ## Best-effort Redis cache operations (`src/utils/redis.py`) -/

/-- A raw Redis byte value: `words` are the whole 32-bit float words of the
buffer and `stray` the number of leftover bytes (`np.frombuffer` with dtype
`float32` fails unless `stray = 0`).  The buffer is empty (falsy in Python)
iff `words = []` and `stray = 0`. -/
structure ByteBuf where
  words : List ℚ
  stray : Nat
deriving DecidableEq, Repr

/-- Split a flat word buffer into `n` rows of `dim` words
(`np.reshape (n, dim)` after a successful `frombuffer`). -/
def chunkRows (dim : Nat) : Nat → List ℚ → List Vec
  | 0, _ => []
  | n + 1, ws => ws.take dim :: chunkRows dim n (ws.drop dim)

/-- Model of `np.frombuffer(bytes, dtype=float32).reshape((n, dim))`: fails unless the
word count is exactly `n * dim`. -/
def reshape (dim : Nat) (ws : List ℚ) (n : Nat) : Option EmbMatrix :=
  if ws.length = n * dim then some (chunkRows dim n ws) else none

/-- The `try` body of `get_cached_embeddings`; `.error` marks any raised
exception (pipeline failure, JSON decode failure, `frombuffer`/`reshape`
failure).  `values_raw = none` models a missing or empty `values` key and
`some (.error ())` a JSON payload that fails to decode. -/
def get_cached_embeddings_body (dim : Nat) (redisOk : Bool)
    (values_raw : Option (Except Unit (List String))) (bytes_raw : Option ByteBuf) :
    Except Unit (Option (List String) × Option EmbMatrix) :=
  if ¬ redisOk then .error ()
  else
    match values_raw, bytes_raw with
    | some vjson, some buf =>
      if buf.words = [] ∧ buf.stray = 0 then .ok (none, none)
      else
        match vjson with
        | .error _ => .error ()
        | .ok values =>
          if buf.stray ≠ 0 then .error ()
          else
            match reshape dim buf.words values.length with
            | none => .error ()
            | some matrix => .ok (some values, some matrix)
    | _, _ => .ok (none, none)

/-- Source `get_cached_embeddings`: the `except Exception` wrapper turns every
failure of the body into a `(None, None)` cache miss. -/
def get_cached_embeddings (dim : Nat) (redisOk : Bool)
    (values_raw : Option (Except Unit (List String))) (bytes_raw : Option ByteBuf) :
    Option (List String) × Option EmbMatrix :=
  match get_cached_embeddings_body dim redisOk values_raw bytes_raw with
  | .ok r => r
  | .error _ => (none, none)

/-- The `try` body of `store_embeddings`: serialize the matrix row-major into
a flat word buffer and write both keys through one pipeline; `.error` marks a
pipeline/serialization failure. -/
def store_embeddings_body (redisOk : Bool) (values : List String)
    (embeddings : EmbMatrix) : Except Unit (List String × ByteBuf) :=
  if redisOk then .ok (values, ⟨embeddings.flatten, 0⟩) else .error ()

/-- Source `store_embeddings`: the `except Exception` wrapper turns every failure
into a no-op; `none` means nothing was written. -/
def store_embeddings (redisOk : Bool) (values : List String)
    (embeddings : EmbMatrix) : Option (List String × ByteBuf) :=
  match store_embeddings_body redisOk values embeddings with
  | .ok written => some written
  | .error _ => none

/-! ## Cooperative interleaving of concurrent warmup callers

`ensure_penalty_embeddings` suspends at two `await` points on the cold path:
the `asyncio.to_thread` model load inside `_load_model` and the
`asyncio.to_thread` encode inside `_compute_embeddings` (no Redis client is
configured here, so the cache round-trip is skipped synchronously).  Each
caller is a task whose atomic segments run between those suspension points;
a schedule picks which suspended task resumes next.  The code takes no lock,
so the model is exactly the check-then-act sequence of the source. -/

/-- Program counter of one `ensure_penalty_embeddings` caller. -/
inductive TaskPC where
  /-- Not yet run: about to check `PENALTY_EMBEDDINGS`. -/
  | begin
  /-- Suspended in the `to_thread` model load of `_load_model`. -/
  | loading
  /-- Suspended in the `to_thread` encode of `_compute_embeddings`. -/
  | computing
  /-- Returned. -/
  | finished
deriving DecidableEq, Repr

/-- Shared module state plus the program counter of every caller.
`loadCount` and `computeCount` count started model loads and started
embedding computations. -/
structure WarmupState where
  modelLoaded : Bool
  embSet : Bool
  loadCount : Nat
  computeCount : Nat
  tasks : List TaskPC
deriving DecidableEq, Repr

/-- Run one atomic segment of task `i`.

* From `begin`: the task checks `PENALTY_EMBEDDINGS` — if set it returns at
  once; otherwise it enters `_load_model`, and either suspends in the model
  load (model not yet assigned) or passes straight through to the encode
  suspension (model already assigned).
* From `loading`: the resumed task assigns `MODEL`, skips the absent cache,
  and suspends in the encode call.
* From `computing`: the resumed task assigns `PENALTY_EMBEDDINGS` and
  returns. -/
def stepTask (s : WarmupState) (i : Nat) : WarmupState :=
  match s.tasks.getD i .finished with
  | .begin =>
    if s.embSet then { s with tasks := s.tasks.set i .finished }
    else if s.modelLoaded then
      { s with tasks := s.tasks.set i .computing, computeCount := s.computeCount + 1 }
    else
      { s with tasks := s.tasks.set i .loading, loadCount := s.loadCount + 1 }
  | .loading =>
    { s with modelLoaded := true, tasks := s.tasks.set i .computing,
             computeCount := s.computeCount + 1 }
  | .computing =>
    { s with embSet := true, tasks := s.tasks.set i .finished }
  | .finished => s

/-- State of `n` concurrent callers against a fully uninitialized store. -/
def initWarmup (n : Nat) : WarmupState :=
  { modelLoaded := false, embSet := false, loadCount := 0, computeCount := 0,
    tasks := List.replicate n .begin }

/-- Run a schedule (a list of task indices) from a state. -/
def runSchedule (sched : List Nat) (s : WarmupState) : WarmupState :=
  sched.foldl stepTask s

/-- A task that has not yet started its embedding computation. -/
def pendingCompute : TaskPC → Bool
  | .begin => true
  | .loading => true
  | _ => false

/-- A task that has not yet started (and may still start) a model load. -/
def pendingLoad : TaskPC → Bool
  | .begin => true
  | _ => false

end PenaltySearch


namespace PenaltySearch

/-! ## Theorems -/

/-- The `"Penalty: " + penalty` segment is never the empty string. -/
theorem penalty_segment_ne (s : String) : ("Penalty: " ++ s) ≠ "" := by
  intro h
  have h2 : ("Penalty: " ++ s).data = "".data := congrArg String.data h
  rw [String.data_append] at h2
  simp at h2

/-- Every record emitted by the railway loop body has a non-empty
description, whatever the carried category is. -/
theorem railway_go_description_ne :
    ∀ (lines : List String) (cat : String) (r : PenaltyRecord),
      r ∈ _parse_railway_go cat lines → r.description ≠ ""
  | [], _, _, h => by simp [_parse_railway_go] at h
  | raw_line :: rest, cat, r, h => by
    simp only [_parse_railway_go] at h
    split at h
    · exact railway_go_description_ne rest cat r h
    · split at h
      · exact railway_go_description_ne rest cat r h
      · split at h
        · exact railway_go_description_ne rest "railway-other" r h
        · split at h
          · exact railway_go_description_ne rest cat r h
          · next hguard =>
            rcases List.mem_cons.mp h with rfl | hm
            · exact hguard
            · exact railway_go_description_ne rest cat r hm

/-- **C4 (amended)**: every record produced by `_parse_railway_records` has a
non-empty description — a railway row whose extracted description is empty is
dropped.  (`_parse_traffic_records` does not enforce this; see the
counterexample.) -/
theorem parse_railway_description_nonempty (lines : List String) (r : PenaltyRecord)
    (hr : r ∈ _parse_railway_records lines) : r.description ≠ "" :=
  railway_go_description_ne lines "railway" r hr

/-- Witness for `parse_railway_description_nonempty` at a concrete line. -/
theorem parse_railway_description_nonempty_witness :
    (({ code := "R1", description := "No ticket", penalty := "", category := "railway" } :
        PenaltyRecord) ∈ _parse_railway_records ["R1, No ticket"]) ∧
    ({ code := "R1", description := "No ticket", penalty := "", category := "railway" } :
        PenaltyRecord).description ≠ "" :=
  ⟨by decide, parse_railway_description_nonempty ["R1, No ticket"] _ (by decide)⟩

/-- **C4 (counterexample)**: the traffic parser emits a record whose
description is empty when the field after the first comma is blank — the row
is not dropped. -/
theorem parse_traffic_empty_description_cex :
    _parse_traffic_records ["a,"] =
      [{ code := "a", description := "", penalty := "", category := "traffic" }] ∧
    ({ code := "a", description := "", penalty := "", category := "traffic" } :
      PenaltyRecord).description = "" := by decide

/-- **C5 (counterexample)**: for a record with an empty code, `as_text` omits
the empty segment entirely instead of joining all three fields, so the literal
reading of the claim fails. -/
theorem as_text_literal_cex :
    PenaltyRecord.as_text
        { code := "", description := "Trespass", penalty := "", category := "railway" } =
      "railway | Trespass" ∧
    as_text_claim_literal
        { code := "", description := "Trespass", penalty := "", category := "railway" } =
      "railway |  | Trespass" ∧
    PenaltyRecord.as_text
        { code := "", description := "Trespass", penalty := "", category := "railway" } ≠
      as_text_claim_literal
        { code := "", description := "Trespass", penalty := "", category := "railway" } := by
  decide

/-- **C5 (amended)**: `as_text` is the deterministic join of the *non-empty*
fields among category, code, description, followed by the penalty segment
exactly when the penalty is non-empty; records with equal fields produce the
identical searchable text. -/
theorem as_text_amended (r : PenaltyRecord) :
    r.as_text = as_text_claim_amended r ∧
    (∀ r2 : PenaltyRecord, r.code = r2.code → r.description = r2.description →
      r.penalty = r2.penalty → r.category = r2.category → r.as_text = r2.as_text) := by
  constructor
  · simp only [PenaltyRecord.as_text, as_text_claim_amended]
    rw [List.filter_append]
    congr 1
    by_cases hp : r.penalty = ""
    · simp [hp]
    · simp [hp, penalty_segment_ne]
  · intro r2 h1 h2 h3 h4
    obtain ⟨c, d, p, cat⟩ := r
    obtain ⟨c2, d2, p2, cat2⟩ := r2
    simp only at h1 h2 h3 h4
    subst h1; subst h2; subst h3; subst h4
    rfl

/-- Witness for `as_text_amended` at a concrete record. -/
theorem as_text_amended_witness :
    (PenaltyRecord.as_text
        { code := "T1", description := "Speeding", penalty := "Rs 500", category := "traffic" } =
      as_text_claim_amended
        { code := "T1", description := "Speeding", penalty := "Rs 500", category := "traffic" }) ∧
    PenaltyRecord.as_text
        { code := "T1", description := "Speeding", penalty := "Rs 500", category := "traffic" } =
      PenaltyRecord.as_text
        { code := "T1", description := "Speeding", penalty := "Rs 500", category := "traffic" } :=
  ⟨(as_text_amended _).1, (as_text_amended _).2 _ rfl rfl rfl rfl⟩

/-- **C3**: with a category whose filtered subset is empty, the lookup
returns without raising, with an empty result list and a non-null note — but
the returned dictionary omits the `matched` and `total_candidates` keys
(modelled as `none`), contradicting the documented uniform result shape. -/
theorem lookup_empty_subset_shape :
    penalty_semantic_lookup
        [{ code := "T1", description := "Speeding", penalty := "Rs 500", category := "traffic" }]
        (some [[1]]) [1] "ticket" 5 (some "railway") =
      .ok { query := "ticket", category := "railway", matched := none,
            total_candidates := none, results := [],
            notes := some "No penalty entries available for the requested category." } := by
  decide

/-- **C10**: an empty-string category behaves exactly like `None` (full index
space, no error); any non-empty category is interpreted only through its
stripped, lowered normal form, so `" Traffic "` is accepted as `"traffic"`. -/
theorem select_category_normalization :
    (∀ records : List PenaltyRecord,
      _select_indices records (some "") = .ok (List.range records.length) ∧
      _select_indices records (some "") = _select_indices records none) ∧
    (∀ (records : List PenaltyRecord) (c1 c2 : String), c1 ≠ "" → c2 ≠ "" →
      pyLower (pyStrip c1) = pyLower (pyStrip c2) →
      _select_indices records (some c1) = _select_indices records (some c2)) ∧
    (∀ records : List PenaltyRecord,
      _select_indices records (some " Traffic ") =
        _select_indices records (some "traffic")) := by
  have hnorm : ∀ (records : List PenaltyRecord) (c1 c2 : String), c1 ≠ "" → c2 ≠ "" →
      pyLower (pyStrip c1) = pyLower (pyStrip c2) →
      _select_indices records (some c1) = _select_indices records (some c2) := by
    intro records c1 c2 h1 h2 h3
    simp only [_select_indices]
    rw [if_neg h1, if_neg h2, h3]
  exact ⟨fun records => ⟨rfl, rfl⟩, hnorm,
    fun records => hnorm records " Traffic " "traffic" (by decide) (by decide) (by decide)⟩

/-- Witness for `select_category_normalization` at a concrete record list
and the concrete categories `" Traffic "` and `"traffic"`. -/
theorem select_category_normalization_witness :
    (" Traffic " ≠ "") ∧ ("traffic" ≠ "") ∧
    pyLower (pyStrip " Traffic ") = pyLower (pyStrip "traffic") ∧
    _select_indices
        [{ code := "T1", description := "Speeding", penalty := "", category := "traffic" }]
        (some " Traffic ") =
      _select_indices
        [{ code := "T1", description := "Speeding", penalty := "", category := "traffic" }]
        (some "traffic") :=
  ⟨by decide, by decide, by decide,
    select_category_normalization.2.1 _ " Traffic " "traffic" (by decide) (by decide)
      (by decide)⟩

/-- Any error from `_select_indices` is a `ValueError`, raised exactly when a
non-empty category normalizes outside `VALID_CATEGORIES`. -/
theorem select_indices_error_iff (records : List PenaltyRecord)
    (category : Option String) :
    (∃ msg, _select_indices records category = .error (.valueError msg)) ↔
    (∃ c, category = some c ∧ c ≠ "" ∧
      VALID_CATEGORIES.contains (pyLower (pyStrip c)) = false) := by
  cases category with
  | none => simp [_select_indices]
  | some c =>
    by_cases hc : c = ""
    · subst hc
      simp [_select_indices]
    · simp only [_select_indices, if_neg hc]
      by_cases hv : VALID_CATEGORIES.contains (pyLower (pyStrip c)) = true
      · rw [if_neg (fun hcond => hcond.1 hv)]
        constructor
        · rintro ⟨msg, hmsg⟩
          split at hmsg <;> simp at hmsg
        · rintro ⟨c2, hc2, -, hcontains⟩
          cases hc2
          rw [hv] at hcontains
          exact absurd hcontains (by simp)
      · have hvf : VALID_CATEGORIES.contains (pyLower (pyStrip c)) = false := by
          simpa using hv
        have hr : pyLower (pyStrip c) ≠ "railway" := by
          intro h
          rw [h] at hvf
          exact absurd hvf (by decide)
        rw [if_pos ⟨hv, hr⟩]
        constructor
        · intro _
          exact ⟨c, rfl, hc, hvf⟩
        · intro _
          exact ⟨"category must be one of the valid categories or railway", rfl⟩

/-- Every non-`ValueError` outcome of `_select_indices` is an `.ok`. -/
theorem select_indices_error_shape (records : List PenaltyRecord)
    (category : Option String) (e : PyErr)
    (h : _select_indices records category = .error e) :
    ∃ msg, e = .valueError msg := by
  cases category with
  | none => simp [_select_indices] at h
  | some c =>
    by_cases hc : c = ""
    · subst hc; simp [_select_indices] at h
    · simp only [_select_indices, if_neg hc] at h
      split at h
      · exact ⟨_, (Except.error.inj h).symm⟩
      · simp at h

/-- **C6**: the lookup raises `ValueError` exactly when the query is empty or
whitespace-only, `top_k` is not positive, or a provided non-empty category
does not normalize (strip + lower) into `VALID_CATEGORIES`; with the store
ready, valid inputs never raise `ValueError`. -/
theorem lookup_invalid_input_iff (records : List PenaltyRecord) (matrix : EmbMatrix)
    (query_vector : Vec) (query : String) (top_k : Int) (category : Option String) :
    (∃ msg, penalty_semantic_lookup records (some matrix) query_vector query top_k category
        = .error (.valueError msg)) ↔
    (pyStrip query = "" ∨ top_k ≤ 0 ∨
      ∃ c, category = some c ∧ c ≠ "" ∧
        VALID_CATEGORIES.contains (pyLower (pyStrip c)) = false) := by
  by_cases hq : query = "" ∨ pyStrip query = ""
  · have hq2 : pyStrip query = "" := by
      rcases hq with rfl | h
      · rfl
      · exact h
    simp only [penalty_semantic_lookup, if_pos hq]
    constructor
    · intro _
      exact Or.inl hq2
    · intro _
      exact ⟨"query cannot be empty", rfl⟩
  · push_neg at hq
    have hq2 : ¬ pyStrip query = "" := hq.2
    simp only [penalty_semantic_lookup, if_neg (not_or.mpr hq)]
    by_cases hk : top_k ≤ 0
    · rw [if_pos hk]
      constructor
      · intro _
        exact Or.inr (Or.inl hk)
      · intro _
        exact ⟨"top_k must be greater than zero", rfl⟩
    · rw [if_neg hk]
      cases hsel : _select_indices records category with
      | error e =>
        obtain ⟨msg, rfl⟩ := select_indices_error_shape records category e hsel
        dsimp only
        constructor
        · intro _
          refine Or.inr (Or.inr ?_)
          exact (select_indices_error_iff records category).mp ⟨msg, hsel⟩
        · intro _
          exact ⟨msg, rfl⟩
      | ok indices =>
        have hno : ¬ ∃ c, category = some c ∧ c ≠ "" ∧
            VALID_CATEGORIES.contains (pyLower (pyStrip c)) = false := by
          intro hex
          obtain ⟨msg, hmsg⟩ := (select_indices_error_iff records category).mpr hex
          rw [hsel] at hmsg
          exact absurd hmsg (by simp)
        dsimp only
        constructor
        · rintro ⟨msg, hmsg⟩
          split at hmsg <;> simp at hmsg
        · rintro (h | h | h)
          · exact absurd h hq2
          · exact absurd h hk
          · exact absurd h hno

/-- **C7**: when the cache yields no adoptable entry and the embedding
computation fails, the error propagates, `PENALTY_EMBEDDINGS` keeps its prior
unset value, and nothing is written to the cache. -/
theorem ensure_compute_failure (force : Bool) (texts : List String)
    (redisAvailable : Bool) (cacheRead : Option (List String) × Option EmbMatrix)
    (encode : List String → Except PyErr EmbMatrix) (e : PyErr)
    (hmiss : cacheHit force redisAvailable cacheRead texts = none)
    (hfail : _compute_embeddings encode texts = .error e) :
    ensure_penalty_embeddings force texts none redisAvailable cacheRead encode =
      { embeddings := none, adopted_cache := false, wrote_cache := false,
        error := some e } := by
  unfold ensure_penalty_embeddings
  rw [if_neg (by simp)]
  rw [hmiss, hfail]

/-- Witness for `ensure_compute_failure` at a concrete failing encoder. -/
theorem ensure_compute_failure_witness :
    cacheHit false true (none, none) ["t"] = none ∧
    _compute_embeddings (fun _ => .error (.runtimeError "encode failed")) ["t"] =
      .error (.runtimeError "encode failed") ∧
    ensure_penalty_embeddings false ["t"] none true (none, none)
        (fun _ => .error (.runtimeError "encode failed")) =
      { embeddings := none, adopted_cache := false, wrote_cache := false,
        error := some (.runtimeError "encode failed") } :=
  ⟨by decide, by decide,
    ensure_compute_failure false ["t"] true (none, none) _ _ (by decide) (by decide)⟩

/-- **C1**: on a warmup run without `force` in which the cache returns an
entry, the cached matrix is adopted exactly when the cached text list equals
the live `PENALTY_TEXTS`; on any mismatch the entry is rejected and fresh
embeddings are computed instead. -/
theorem ensure_adopts_cached_iff (texts vals : List String) (m : EmbMatrix)
    (encode : List String → Except PyErr EmbMatrix) (htexts : texts ≠ []) :
    ((ensure_penalty_embeddings false texts none true (some vals, some m) encode).adopted_cache
        = true ↔ vals = texts) ∧
    ((ensure_penalty_embeddings false texts none true (some vals, some m) encode).adopted_cache
        = true →
      (ensure_penalty_embeddings false texts none true (some vals, some m) encode).embeddings
        = some m) ∧
    (vals ≠ texts →
      (ensure_penalty_embeddings false texts none true (some vals, some m) encode).adopted_cache
          = false ∧
      ∀ m2, encode texts = .ok m2 →
        (ensure_penalty_embeddings false texts none true (some vals, some m) encode).embeddings
          = some m2) := by
  by_cases hv : vals = texts
  · subst hv
    have hch : cacheHit false true (some vals, some m) vals = some m := by
      unfold cacheHit
      rw [if_pos (by simp)]
      exact if_pos ⟨htexts, rfl, rfl⟩
    have hr : ensure_penalty_embeddings false vals none true (some vals, some m) encode =
        { embeddings := some m, adopted_cache := true, wrote_cache := false,
          error := none } := by
      unfold ensure_penalty_embeddings
      rw [if_neg (by simp), hch]
    refine ⟨by simp [hr], fun _ => by simp [hr], fun hne => absurd rfl hne⟩
  · have hch : cacheHit false true (some vals, some m) texts = none := by
      unfold cacheHit
      rw [if_pos (by simp)]
      exact if_neg (fun hc => hv hc.2.2)
    cases henc : encode texts with
    | error e =>
      have hr : ensure_penalty_embeddings false texts none true (some vals, some m) encode =
          { embeddings := none, adopted_cache := false, wrote_cache := false,
            error := some e } := by
        unfold ensure_penalty_embeddings
        rw [if_neg (by simp), hch]
        unfold _compute_embeddings
        rw [if_neg htexts, henc]
      refine ⟨by simp [hr, hv], by simp [hr], fun _ => ⟨by simp [hr], ?_⟩⟩
      intro m2 hm2
      exact absurd hm2 (by simp)
    | ok m2 =>
      have hr : ensure_penalty_embeddings false texts none true (some vals, some m) encode =
          { embeddings := some m2, adopted_cache := false, wrote_cache := true,
            error := none } := by
        unfold ensure_penalty_embeddings
        rw [if_neg (by simp), hch]
        unfold _compute_embeddings
        rw [if_neg htexts, henc]
      refine ⟨by simp [hr, hv], by simp [hr], fun _ => ⟨by simp [hr], ?_⟩⟩
      intro m3 hm3
      cases hm3
      simp [hr]

/-- Reshaping a flat buffer of `n * dim` words yields exactly `n` rows. -/
theorem chunkRows_length (dim : Nat) :
    ∀ (n : Nat) (ws : List ℚ), (chunkRows dim n ws).length = n
  | 0, _ => rfl
  | n + 1, ws => by simp [chunkRows, chunkRows_length dim n]

/-- Reshaping a flat buffer of `n * dim` words yields rows of width `dim`. -/
theorem chunkRows_row_length (dim : Nat) :
    ∀ (n : Nat) (ws : List ℚ), ws.length = n * dim →
      ∀ row ∈ chunkRows dim n ws, row.length = dim
  | 0, ws, _, row, hr => by simp [chunkRows] at hr
  | n + 1, ws, h, row, hr => by
    have h2 : ws.length = n * dim + dim := by rw [h, Nat.succ_mul]
    simp only [chunkRows, List.mem_cons] at hr
    rcases hr with rfl | hr
    · rw [List.length_take]
      omega
    · exact chunkRows_row_length dim n (ws.drop dim) (by rw [List.length_drop]; omega)
        row hr

/-- **C8**: the cache operations never surface a failure.  A read either
returns a full miss `(none, none)` — in particular on any body failure and on
any byte buffer whose word count does not match the `(len(texts), D)` shape —
or a hit whose matrix has exactly the expected shape; a write whose body
fails is a no-op. -/
theorem cache_ops_never_raise :
    (∀ (dim : Nat) (redisOk : Bool) (values_raw : Option (Except Unit (List String)))
        (bytes_raw : Option ByteBuf),
      get_cached_embeddings dim redisOk values_raw bytes_raw = (none, none) ∨
      ∃ values buf,
        values_raw = some (.ok values) ∧ bytes_raw = some buf ∧ buf.stray = 0 ∧
        buf.words.length = values.length * dim ∧
        get_cached_embeddings dim redisOk values_raw bytes_raw =
          (some values, some (chunkRows dim values.length buf.words)) ∧
        (chunkRows dim values.length buf.words).length = values.length ∧
        ∀ row ∈ chunkRows dim values.length buf.words, row.length = dim) ∧
    (∀ (dim : Nat) (redisOk : Bool) (values : List String) (buf : ByteBuf),
      buf.words.length ≠ values.length * dim →
      get_cached_embeddings dim redisOk (some (.ok values)) (some buf) = (none, none)) ∧
    (∀ (dim : Nat) (redisOk : Bool) (values_raw : Option (Except Unit (List String)))
        (bytes_raw : Option ByteBuf),
      get_cached_embeddings_body dim redisOk values_raw bytes_raw = .error () →
      get_cached_embeddings dim redisOk values_raw bytes_raw = (none, none)) ∧
    (∀ (redisOk : Bool) (values : List String) (embeddings : EmbMatrix),
      store_embeddings_body redisOk values embeddings = .error () →
      store_embeddings redisOk values embeddings = none) := by
  refine ⟨?_, ?_, ?_, ?_⟩
  · intro dim redisOk values_raw bytes_raw
    unfold get_cached_embeddings get_cached_embeddings_body
    by_cases hok : redisOk = true
    · rw [if_neg (by simp [hok])]
      cases values_raw with
      | none => exact Or.inl rfl
      | some vjson =>
        cases bytes_raw with
        | none => exact Or.inl rfl
        | some buf =>
          dsimp only
          by_cases hempty : buf.words = [] ∧ buf.stray = 0
          · rw [if_pos hempty]
            exact Or.inl rfl
          · rw [if_neg hempty]
            cases vjson with
            | error u => exact Or.inl rfl
            | ok values =>
              dsimp only
              by_cases hstray : buf.stray ≠ 0
              · rw [if_pos hstray]
                exact Or.inl rfl
              · rw [if_neg hstray]
                unfold reshape
                by_cases hlen : buf.words.length = values.length * dim
                · rw [if_pos hlen]
                  exact Or.inr ⟨values, buf, rfl, rfl, by omega, hlen, rfl,
                    chunkRows_length dim values.length buf.words,
                    chunkRows_row_length dim values.length buf.words hlen⟩
                · rw [if_neg hlen]
                  exact Or.inl rfl
    · rw [if_pos (by simp [hok])]
      exact Or.inl rfl
  · intro dim redisOk values buf hne
    unfold get_cached_embeddings get_cached_embeddings_body
    by_cases hok : redisOk = true
    · rw [if_neg (by simp [hok])]
      dsimp only
      by_cases hempty : buf.words = [] ∧ buf.stray = 0
      · rw [if_pos hempty]
      · rw [if_neg hempty]
        by_cases hstray : buf.stray ≠ 0
        · rw [if_pos hstray]
        · rw [if_neg hstray]
          unfold reshape
          rw [if_neg hne]
    · rw [if_pos (by simp [hok])]
  · intro dim redisOk values_raw bytes_raw h
    unfold get_cached_embeddings
    rw [h]
  · intro redisOk values embeddings h
    unfold store_embeddings
    rw [h]

/-- Witness for `cache_ops_never_raise`: a shape-mismatched buffer reads as a
miss, and a failing pipeline write is a no-op. -/
theorem cache_ops_never_raise_witness :
    (([(1 : ℚ), 2, 3].length ≠ (["a"] : List String).length * 2) ∧
      get_cached_embeddings 2 true (some (.ok ["a"])) (some ⟨[1, 2, 3], 0⟩) =
        (none, none)) ∧
    (store_embeddings_body false ["a"] [[1]] = .error () ∧
      store_embeddings false ["a"] [[1]] = none) :=
  ⟨⟨by decide, cache_ops_never_raise.2.1 2 true ["a"] ⟨[1, 2, 3], 0⟩ (by decide)⟩,
   ⟨by decide, cache_ops_never_raise.2.2.2 false ["a"] [[1]] (by decide)⟩⟩

/-- Witness for `ensure_adopts_cached_iff` on a matching cached entry. -/
theorem ensure_adopts_cached_iff_witness :
    (["t"] ≠ ([] : List String)) ∧
    ((ensure_penalty_embeddings false ["t"] none true (some ["t"], some [[1]])
        (fun _ => .error (.runtimeError "unused"))).adopted_cache = true ↔
      ["t"] = ["t"]) :=
  ⟨by decide,
    (ensure_adopts_cached_iff ["t"] ["t"] [[1]] (fun _ => .error (.runtimeError "unused"))
      (by decide)).1⟩

/-- Setting index `i` exchanges the countP contribution of the old element
for that of the new element. -/
theorem countP_set_eq {α : Type _} (p : α → Bool) :
    ∀ (l : List α) (i : Nat) (v : α) (h : i < l.length),
      (l.set i v).countP p + (if p (l.get ⟨i, h⟩) then 1 else 0) =
        l.countP p + (if p v then 1 else 0)
  | a :: l, 0, v, _ => by
    simp only [List.set, List.countP_cons, List.get]
    omega
  | a :: l, i + 1, v, h => by
    have ih := countP_set_eq p l i v (Nat.lt_of_succ_lt_succ h)
    simp only [List.set, List.countP_cons, List.get]
    omega

/-- One warmup step never increases `computeCount + pending computations` nor
`loadCount + pending loads`, and preserves the number of tasks. -/
theorem stepTask_counts (s : WarmupState) (i : Nat) :
    (stepTask s i).tasks.length = s.tasks.length ∧
    (stepTask s i).computeCount + (stepTask s i).tasks.countP pendingCompute ≤
      s.computeCount + s.tasks.countP pendingCompute ∧
    (stepTask s i).loadCount + (stepTask s i).tasks.countP pendingLoad ≤
      s.loadCount + s.tasks.countP pendingLoad := by
  by_cases hi : i < s.tasks.length
  · have hget : s.tasks.getD i .finished = s.tasks.get ⟨i, hi⟩ :=
      List.getD_eq_get s.tasks .finished hi
    have ec := fun v => countP_set_eq pendingCompute s.tasks i v hi
    have el := fun v => countP_set_eq pendingLoad s.tasks i v hi
    unfold stepTask
    rw [hget]
    cases hpc : s.tasks.get ⟨i, hi⟩ with
    | begin =>
      by_cases hemb : s.embSet = true
      · rw [if_pos hemb]
        have hc2 := ec .finished
        have hl2 := el .finished
        rw [hpc] at hc2 hl2
        simp [pendingCompute, pendingLoad] at hc2 hl2
        refine ⟨by simp, ?_, ?_⟩ <;> dsimp only <;> omega
      · rw [if_neg hemb]
        by_cases hml : s.modelLoaded = true
        · rw [if_pos hml]
          have hc2 := ec .computing
          have hl2 := el .computing
          rw [hpc] at hc2 hl2
          simp [pendingCompute, pendingLoad] at hc2 hl2
          refine ⟨by simp, ?_, ?_⟩ <;> dsimp only <;> omega
        · rw [if_neg hml]
          have hc2 := ec .loading
          have hl2 := el .loading
          rw [hpc] at hc2 hl2
          simp [pendingCompute, pendingLoad] at hc2 hl2
          refine ⟨by simp, ?_, ?_⟩ <;> dsimp only <;> omega
    | loading =>
      have hc2 := ec .computing
      have hl2 := el .computing
      rw [hpc] at hc2 hl2
      simp [pendingCompute, pendingLoad] at hc2 hl2
      refine ⟨by simp, ?_, ?_⟩ <;> dsimp only <;> omega
    | computing =>
      have hc2 := ec .finished
      have hl2 := el .finished
      rw [hpc] at hc2 hl2
      simp [pendingCompute, pendingLoad] at hc2 hl2
      refine ⟨by simp, ?_, ?_⟩ <;> dsimp only <;> omega
    | finished => exact ⟨rfl, le_refl _, le_refl _⟩
  · have hget : s.tasks.getD i .finished = .finished :=
      List.getD_eq_default s.tasks .finished (le_of_not_lt hi)
    unfold stepTask
    rw [hget]
    exact ⟨rfl, le_refl _, le_refl _⟩

/-- Running any schedule never increases the two warmup progress measures. -/
theorem runSchedule_counts (sched : List Nat) :
    ∀ s : WarmupState,
      (runSchedule sched s).computeCount + (runSchedule sched s).tasks.countP
          pendingCompute ≤ s.computeCount + s.tasks.countP pendingCompute ∧
      (runSchedule sched s).loadCount + (runSchedule sched s).tasks.countP
          pendingLoad ≤ s.loadCount + s.tasks.countP pendingLoad := by
  induction sched with
  | nil => exact fun s => ⟨le_refl _, le_refl _⟩
  | cons i rest ih =>
    intro s
    have hstep := stepTask_counts s i
    have hrest := ih (stepTask s i)
    exact ⟨hrest.1.trans hstep.2.1, hrest.2.trans hstep.2.2⟩

/-- All `n` replicated begin-state tasks are pending. -/
theorem countP_replicate_begin (n : Nat) :
    (List.replicate n TaskPC.begin).countP pendingCompute = n ∧
    (List.replicate n TaskPC.begin).countP pendingLoad = n := by
  induction n with
  | zero => exact ⟨rfl, rfl⟩
  | succ n ih =>
    simp only [List.replicate_succ, List.countP_cons]
    exact ⟨by rw [ih.1]; rfl, by rw [ih.2]; rfl⟩

/-- **C9 (amended)**: a caller that observes the published embedding matrix
performs no load and no computation; without interleaving, a warmup of two
callers performs exactly one model load and one embedding computation; and
under any schedule, `n` callers perform at most `n` loads and `n`
computations — but nothing coalesces concurrent callers onto a single
computation (see the counterexample). -/
theorem warmup_no_coalescing_amended :
    (∀ (s : WarmupState) (i : Nat), s.tasks.getD i .finished = .begin →
      s.embSet = true → stepTask s i = { s with tasks := s.tasks.set i .finished }) ∧
    (runSchedule [0, 0, 0, 1] (initWarmup 2) =
      { modelLoaded := true, embSet := true, loadCount := 1, computeCount := 1,
        tasks := [.finished, .finished] }) ∧
    (∀ (sched : List Nat) (n : Nat),
      (runSchedule sched (initWarmup n)).computeCount ≤ n ∧
      (runSchedule sched (initWarmup n)).loadCount ≤ n) := by
  refine ⟨?_, by decide, ?_⟩
  · intro s i h1 h2
    unfold stepTask
    rw [h1, h2]
    simp
  · intro sched n
    have h := runSchedule_counts sched (initWarmup n)
    have hc := (countP_replicate_begin n).1
    have hl := (countP_replicate_begin n).2
    have h2 : (initWarmup n).computeCount + (initWarmup n).tasks.countP pendingCompute = n := by
      show 0 + (List.replicate n TaskPC.begin).countP pendingCompute = n
      rw [hc]
      omega
    have h3 : (initWarmup n).loadCount + (initWarmup n).tasks.countP pendingLoad = n := by
      show 0 + (List.replicate n TaskPC.begin).countP pendingLoad = n
      rw [hl]
      omega
    omega

/-- Witness for `warmup_no_coalescing_amended`: a caller arriving at a state
with the matrix already published returns at once, changing no counters. -/
theorem warmup_no_coalescing_amended_witness :
    (({ modelLoaded := false, embSet := true, loadCount := 0, computeCount := 1,
        tasks := [.begin] } : WarmupState).tasks.getD 0 .finished = .begin) ∧
    stepTask ({ modelLoaded := false, embSet := true, loadCount := 0,
                computeCount := 1, tasks := [.begin] } : WarmupState) 0 =
      ({ modelLoaded := false, embSet := true, loadCount := 0,
         computeCount := 1, tasks := [.finished] } : WarmupState) :=
  ⟨by decide,
    warmup_no_coalescing_amended.1
      ({ modelLoaded := false, embSet := true, loadCount := 0,
         computeCount := 1, tasks := [.begin] } : WarmupState) 0 (by decide) (by decide)⟩

/-- **C9 (counterexample)**: with two concurrent callers interleaved at the
suspension points, both callers complete but two model loads and two
embedding computations execute — not exactly one. -/
theorem warmup_double_compute_cex :
    (runSchedule [0, 1, 0, 1, 0, 1] (initWarmup 2)).tasks = [.finished, .finished] ∧
    (runSchedule [0, 1, 0, 1, 0, 1] (initWarmup 2)).loadCount = 2 ∧
    (runSchedule [0, 1, 0, 1, 0, 1] (initWarmup 2)).computeCount = 2 := by decide

/-- Any successful `_select_indices` result is strictly increasing. -/
theorem select_indices_sorted (records : List PenaltyRecord) (category : Option String)
    (indices : List Nat) (h : _select_indices records category = .ok indices) :
    List.Pairwise (· < ·) indices := by
  cases category with
  | none =>
    simp only [_select_indices] at h
    obtain rfl := Except.ok.inj h
    exact List.pairwise_lt_range _
  | some c =>
    simp only [_select_indices] at h
    by_cases hc : c = ""
    · rw [if_pos hc] at h
      obtain rfl := Except.ok.inj h
      exact List.pairwise_lt_range _
    · rw [if_neg hc] at h
      split at h
      · exact absurd h (by simp)
      · obtain rfl := Except.ok.inj h
        have hsub : List.Sublist
            ((records.enum.filter
              (fun p => (if pyLower (pyStrip c) = "railway"
                then ["railway", "railway-other"] else [pyLower (pyStrip c)]).contains
                  p.2.category)).map Prod.fst)
            (records.enum.map Prod.fst) :=
          (List.filter_sublist _).map Prod.fst
        rw [List.enum_map_fst] at hsub
        exact (List.pairwise_lt_range _).sublist hsub

/-- Number of scored positions. -/
theorem scoredPositions_length (scores : List ℚ) :
    (scoredPositions scores).length = scores.length := by
  simp [scoredPositions]

/-- The model of `torch.topk` returns `min k n` entries. -/
theorem topk_length (scores : List ℚ) (k : Nat) :
    (topk scores k).length = min k scores.length := by
  simp [topk, List.length_take, List.length_insertionSort, scoredPositions_length]

/-- The model of `torch.topk` is sorted under the descending-score,
ascending-position order. -/
theorem topk_sorted (scores : List ℚ) (k : Nat) :
    List.Pairwise rankLE (topk scores k) :=
  (List.sorted_insertionSort rankLE (scoredPositions scores)).sublist
    (List.take_sublist k _)

/-- The positions in the model of `torch.topk` are pairwise distinct. -/
theorem topk_fst_nodup (scores : List ℚ) (k : Nat) :
    ((topk scores k).map Prod.fst).Nodup := by
  have hperm : (List.insertionSort rankLE (scoredPositions scores)).Perm
      (scoredPositions scores) := List.perm_insertionSort _ _
  have h2 : ((scoredPositions scores).map Prod.fst) = List.range scores.length := by
    rw [scoredPositions, List.map_map]
    exact List.map_id _
  have h3 : ((List.insertionSort rankLE (scoredPositions scores)).map Prod.fst).Nodup :=
    (hperm.map Prod.fst).nodup_iff.mpr (h2 ▸ List.nodup_range scores.length)
  exact h3.sublist ((List.take_sublist k _).map Prod.fst)

/-- Every entry of the model of `torch.topk` is a genuine `(position, score)`
pair of the score vector. -/
theorem topk_mem (scores : List ℚ) (k : Nat) (q : Nat × ℚ) (hq : q ∈ topk scores k) :
    q.1 < scores.length ∧ q.2 = scores.getD q.1 0 := by
  have h1 : q ∈ List.insertionSort rankLE (scoredPositions scores) :=
    (List.take_sublist k _).subset hq
  have h2 : q ∈ scoredPositions scores := (List.perm_insertionSort rankLE _).subset h1
  simp only [scoredPositions, List.mem_map, List.mem_range] at h2
  obtain ⟨p, hp, rfl⟩ := h2
  exact ⟨hp, rfl⟩

/-- The model of `torch.topk` is strictly ordered: descending score with ties
broken by strictly ascending position. -/
theorem topk_pairwise_strict (scores : List ℚ) (k : Nat) :
    List.Pairwise (fun a b : Nat × ℚ => b.2 < a.2 ∨ (a.2 = b.2 ∧ a.1 < b.1))
      (topk scores k) := by
  have h1 := topk_sorted scores k
  have h2 : List.Pairwise (fun a b : Nat × ℚ => a.1 ≠ b.1) (topk scores k) :=
    List.pairwise_map.mp (topk_fst_nodup scores k)
  refine (h1.and h2).imp ?_
  rintro a b ⟨hle, hne⟩
  rcases hle with h | ⟨heq, hle⟩
  · exact Or.inl h
  · exact Or.inr ⟨heq, lt_of_le_of_ne hle hne⟩

/-- In a strictly increasing list, positions map monotonically to values. -/
theorem pairwise_lt_getD (l : List Nat) (hl : List.Pairwise (· < ·) l) (i j : Nat)
    (hij : i < j) (hj : j < l.length) : l.getD i 0 < l.getD j 0 := by
  have hi : i < l.length := hij.trans hj
  rw [List.getD_eq_get l 0 hi, List.getD_eq_get l 0 hj]
  exact List.pairwise_iff_get.mp hl ⟨i, hi⟩ ⟨j, hj⟩ hij

/-- The ranked candidate list has exactly `min top_k subset_size` entries. -/
theorem rankCandidates_length (matrix : EmbMatrix) (query_vector : Vec) (top_k : Int)
    (indices : List Nat) :
    (rankCandidates matrix query_vector top_k indices).length =
      min top_k.toNat indices.length := by
  simp only [rankCandidates, List.length_map, topk_length, List.length_map]
  omega

/-- The ranked candidate list is ordered by strictly descending similarity,
ties broken by strictly ascending original record index.  Requires the index
subset to be strictly increasing, which `_select_indices` guarantees. -/
theorem rankCandidates_pairwise (matrix : EmbMatrix) (query_vector : Vec) (top_k : Int)
    (indices : List Nat) (hsorted : List.Pairwise (· < ·) indices) :
    List.Pairwise (fun p q : Nat × ℚ => q.2 < p.2 ∨ (p.2 = q.2 ∧ p.1 < q.1))
      (rankCandidates matrix query_vector top_k indices) := by
  simp only [rankCandidates]
  apply List.pairwise_map.mpr
  refine (topk_pairwise_strict _ _).imp_of_mem ?_
  intro a b ha hb hab
  rcases hab with h | ⟨heq, hlt⟩
  · exact Or.inl h
  · refine Or.inr ⟨heq, ?_⟩
    have hbmem := topk_mem _ _ b hb
    have hblen : b.1 < indices.length := by
      have := hbmem.1
      rwa [List.length_map] at this
    exact pairwise_lt_getD indices hsorted a.1 b.1 hlt hblen

/-- Every ranked entry maps a member of the index subset to its dot-product
similarity against the query vector. -/
theorem rankCandidates_mem (matrix : EmbMatrix) (query_vector : Vec) (top_k : Int)
    (indices : List Nat) (p : Nat × ℚ)
    (hp : p ∈ rankCandidates matrix query_vector top_k indices) :
    p.1 ∈ indices ∧ p.2 = dot (matrix.getD p.1 []) query_vector := by
  simp only [rankCandidates, List.mem_map] at hp
  obtain ⟨q, hq, rfl⟩ := hp
  have h := topk_mem _ _ q hq
  have hlen : q.1 < indices.length := by
    have := h.1
    rwa [List.length_map] at this
  constructor
  · rw [List.getD_eq_get indices 0 hlen]
    exact List.get_mem indices q.1 hlen
  · rw [h.2, List.getD_eq_get _ 0 (by rwa [List.length_map])]
    rw [List.get_map]
    rw [List.getD_eq_get indices 0 hlen]

/-- **C2**: on a non-empty filtered subset with valid inputs, the lookup
returns the ranked list built from the subset: exactly
`min(top_k, subset_size)` entries, ordered by descending similarity with ties
broken by ascending original record index, each entry mapping back through
the index list of the subset to its original `PenaltyRecord` and carrying the
dot product of the embedding row of that record with the query vector. -/
theorem lookup_topk_structure (records : List PenaltyRecord) (matrix : EmbMatrix)
    (query_vector : Vec) (query : String) (top_k : Int) (category : Option String)
    (indices : List Nat)
    (hq : pyStrip query ≠ "") (hk : 0 < top_k)
    (hsel : _select_indices records category = .ok indices) (hne : indices ≠ []) :
    penalty_semantic_lookup records (some matrix) query_vector query top_k category =
      .ok { query := query, category := categoryLabel category,
            matched := some (rankCandidates matrix query_vector top_k indices).length,
            total_candidates := some indices.length,
            results := (rankCandidates matrix query_vector top_k indices).map (fun p =>
              _format_record
                (records.getD p.1
                  { code := "", description := "", penalty := "", category := "" }) p.2),
            notes := none } ∧
    (rankCandidates matrix query_vector top_k indices).length =
      min top_k.toNat indices.length ∧
    List.Pairwise (fun p q : Nat × ℚ => q.2 < p.2 ∨ (p.2 = q.2 ∧ p.1 < q.1))
      (rankCandidates matrix query_vector top_k indices) ∧
    ∀ p ∈ rankCandidates matrix query_vector top_k indices,
      p.1 ∈ indices ∧ p.2 = dot (matrix.getD p.1 []) query_vector := by
  refine ⟨?_, rankCandidates_length matrix query_vector top_k indices,
    rankCandidates_pairwise matrix query_vector top_k indices
      (select_indices_sorted records category indices hsel),
    fun p hp => rankCandidates_mem matrix query_vector top_k indices p hp⟩
  have hq' : ¬ (query = "" ∨ pyStrip query = "") := by
    rintro (rfl | h)
    · exact hq rfl
    · exact hq h
  simp only [penalty_semantic_lookup, if_neg hq', if_neg (not_le.mpr hk)]
  rw [hsel]
  dsimp only
  rw [if_neg hne]
  simp [List.length_map]

/-- Witness for `lookup_topk_structure` at a two-record corpus with
`top_k = 1` and no category filter. -/
theorem lookup_topk_structure_witness :
    (pyStrip "ticket" ≠ "") ∧ ((0 : Int) < 1) ∧
    (_select_indices
        [{ code := "T1", description := "Speeding", penalty := "Rs 500",
           category := "traffic" },
         { code := "R1", description := "No ticket", penalty := "",
           category := "railway" }] none = .ok [0, 1]) ∧
    ([0, 1] ≠ ([] : List Nat)) ∧
    (rankCandidates [[1, 0], [0, 1]] [0, 1] 1 [0, 1]).length =
      min (Int.toNat 1) ([0, 1] : List Nat).length :=
  ⟨by decide, by decide, by decide, by decide,
    (lookup_topk_structure
      [{ code := "T1", description := "Speeding", penalty := "Rs 500",
         category := "traffic" },
       { code := "R1", description := "No ticket", penalty := "",
         category := "railway" }]
      [[1, 0], [0, 1]] [0, 1] "ticket" 1 none [0, 1]
      (by decide) (by decide) (by decide) (by decide)).2.1⟩

end PenaltySearch
